import Mathlib

/-!
Verification of the go-cqhttp WebSocket gateway (`server/websocket.go`)
against its natural-language specification.

The Go source is shallowly embedded: each Go function relevant to the
claims is translated into an executable Lean definition.  Socket I/O is
abstracted by boolean success parameters (`writeOk`, `dialOk`, ...) and
connections are identified by natural numbers; everything else follows
the Go control flow line by line.
-/

namespace GoCqhttp

/-- A minimal JSON value model, covering what `gjson`/`encoding/json`
handle in the dispatcher: strings, numbers, objects, arrays, booleans
and null. -/
inductive JVal where
  | null : JVal
  | bool (b : Bool) : JVal
  | num (n : Int) : JVal
  | str (s : String) : JVal
  | arr (elems : List JVal) : JVal
  | obj (fields : List (String × JVal)) : JVal

/-- Lookup of a top-level field, as `gjson.Result.Get` on an object:
first binding wins. -/
def jGet (fields : List (String × JVal)) (k : String) : Option JVal :=
  match fields with
  | [] => none
  | (k2, v) :: rest => if k2 = k then some v else jGet rest k

/-- `gjson` `.Str` accessor: the string content when the value is a
string, and the empty string otherwise (including a missing key). -/
def jStr (fields : List (String × JVal)) (k : String) : String :=
  match jGet fields k with
  | some (JVal.str s) => s
  | _ => ""

/-- Go map assignment `m[k] = v`: replace the binding if the key is
present, else add it. -/
def mapSet (m : List (String × JVal)) (k : String) (v : JVal) : List (String × JVal) :=
  match m with
  | [] => [(k, v)]
  | (k2, v2) :: rest => if k2 = k then (k, v) :: rest else (k2, v2) :: mapSet rest k v

/-- `strings.TrimSuffix`: remove the trailing suffix once when present,
otherwise return the string unchanged.  Phrased on the character list so
that the kernel can evaluate it on literals. -/
def trimSuffix (s suffix : String) : String :=
  if List.isSuffixOf suffix.data s.data then
    String.mk (s.data.take (s.data.length - suffix.data.length))
  else s

/-- `wsConn.handleRequest` (dispatch part): parse the inbound command
envelope, strip a trailing async marker from `action`, invoke the API
caller on the stripped action and the `params` field, and copy a present
`echo` field verbatim into the response map.  The API caller
(`apiCaller.Call`, an external collaborator) is a parameter. -/
def handleRequest (call : String → JVal → List (String × JVal))
    (cmd : List (String × JVal)) : List (String × JVal) :=
  let t := trimSuffix (jStr cmd ("action")) ("_async")
  let ret := call t ((jGet cmd ("params")).getD JVal.null)
  match jGet cmd ("echo") with
  | some v => mapSet ret ("echo") v
  | none => ret

/-- Command envelope builder used to state the dispatcher claims:
`action`, `params`, and an optional `echo`. -/
def cmdEnvelope (action : String) (params : JVal) (echo : Option JVal) :
    List (String × JVal) :=
  match echo with
  | some e => [("action", JVal.str action), ("params", params), ("echo", e)]
  | none => [("action", JVal.str action), ("params", params)]

theorem trimSuffix_send_msg : trimSuffix ("send_msg_async") ("_async") = "send_msg" := by
  rfl

theorem trimSuffix_send_msg_fix : trimSuffix ("send_msg") ("_async") = "send_msg" := by
  rfl

theorem jGet_mapSet_self (m : List (String × JVal)) (k : String) (v : JVal) :
    jGet (mapSet m k v) k = some v := by
  induction m with
  | nil => simp [mapSet, jGet]
  | cons hd tl ih =>
    obtain ⟨k2, v2⟩ := hd
    by_cases h : k2 = k
    · simp [mapSet, h, jGet]
    · simp [mapSet, h, jGet, ih]

theorem handleRequest_envelope_some (call : String → JVal → List (String × JVal))
    (a : String) (params e : JVal) :
    handleRequest call (cmdEnvelope a params (some e)) =
      mapSet (call (trimSuffix a ("_async")) params) ("echo") e := rfl

theorem handleRequest_envelope_none (call : String → JVal → List (String × JVal))
    (a : String) (params : JVal) :
    handleRequest call (cmdEnvelope a params none) =
      call (trimSuffix a ("_async")) params := rfl

/-- C3: a trailing `_async` on the inbound `action` is stripped before
dispatch and otherwise ignored, so a `send_msg_async` command dispatches
exactly as `send_msg`; a present `echo` value is copied verbatim into the
response (for every `JVal`, hence in particular string, numeric and
object values); a command without `echo` yields a response without an
`echo` field (the API caller result itself carrying none). -/
theorem dispatch_async_strip_and_echo
    (call : String → JVal → List (String × JVal))
    (hcall : ∀ a p, jGet (call a p) ("echo") = none)
    (params : JVal) :
    (∀ e : JVal,
        handleRequest call (cmdEnvelope ("send_msg_async") params (some e)) =
          handleRequest call (cmdEnvelope ("send_msg") params (some e))) ∧
    (∀ e : JVal,
        jGet (handleRequest call (cmdEnvelope ("send_msg_async") params (some e)))
            ("echo") = some e) ∧
    jGet (handleRequest call (cmdEnvelope ("send_msg_async") params none)) ("echo") =
      none := by
  refine ⟨fun e => ?_, fun e => ?_, ?_⟩
  · rw [handleRequest_envelope_some, handleRequest_envelope_some,
      trimSuffix_send_msg, trimSuffix_send_msg_fix]
  · rw [handleRequest_envelope_some, jGet_mapSet_self]
  · rw [handleRequest_envelope_none, trimSuffix_send_msg, hcall]

/-- A concrete stand-in for `apiCaller.Call`, producing an
OneBot-style result map without an `echo` key. -/
def demoCall (a : String) (p : JVal) : List (String × JVal) :=
  [("status", JVal.str ("ok")), ("retcode", JVal.num 0), ("data", p),
   ("used_action", JVal.str a)]

theorem dispatch_async_strip_and_echo_witness :
    (∀ a p, jGet (demoCall a p) ("echo") = none) ∧
    (handleRequest demoCall (cmdEnvelope ("send_msg_async") JVal.null
        (some (JVal.str ("x1")))) =
      handleRequest demoCall (cmdEnvelope ("send_msg") JVal.null
        (some (JVal.str ("x1"))))) ∧
    jGet (handleRequest demoCall (cmdEnvelope ("send_msg_async") JVal.null
        (some (JVal.str ("x1"))))) ("echo") = some (JVal.str ("x1")) ∧
    jGet (handleRequest demoCall (cmdEnvelope ("send_msg_async") JVal.null
        (some (JVal.num 7)))) ("echo") = some (JVal.num 7) ∧
    jGet (handleRequest demoCall (cmdEnvelope ("send_msg_async") JVal.null
        (some (JVal.obj [("k", JVal.num 1)])))) ("echo") =
      some (JVal.obj [("k", JVal.num 1)]) ∧
    jGet (handleRequest demoCall (cmdEnvelope ("send_msg_async") JVal.null none))
        ("echo") = none := by
  have h0 : ∀ a p, jGet (demoCall a p) ("echo") = none := fun a p => rfl
  refine ⟨h0, ?_, ?_, ?_, ?_, ?_⟩
  · exact (dispatch_async_strip_and_echo demoCall h0 JVal.null).1 (JVal.str ("x1"))
  · exact (dispatch_async_strip_and_echo demoCall h0 JVal.null).2.1 (JVal.str ("x1"))
  · exact (dispatch_async_strip_and_echo demoCall h0 JVal.null).2.1 (JVal.num 7)
  · exact (dispatch_async_strip_and_echo demoCall h0 JVal.null).2.1
      (JVal.obj [("k", JVal.num 1)])
  · exact (dispatch_async_strip_and_echo demoCall h0 JVal.null).2.2

/-! ## Server-side broadcast (`webSocketServer.onBotPushEvent`)

Connections are identified by naturals; `writeOk c` abstracts whether
`conn.WriteText(e.JSONBytes())` succeeds on connection `c` during the
pass.  The loop below mirrors the Go loop verbatim: index `i` scans the
slice, index `j` is the compaction front, a failed write closes the
connection and skips the compaction store, and the slice is finally
truncated to length `j`. -/

/-- Result of one broadcast pass: the subscriber slice afterwards, the
connections on which a write was attempted (in attempt order), and the
connections that were closed. -/
structure PushResult where
  conns : List Nat
  attempts : List Nat
  closed : List Nat
deriving DecidableEq

/-- The `for i := 0; i < len(s.eventConn); i++` loop of
`webSocketServer.onBotPushEvent`, with the in-place `s.eventConn[j] =
conn` compaction store and the final `s.eventConn = s.eventConn[:j]`
truncation. -/
def pushLoopGo (writeOk : Nat → Bool) (arr : List Nat) (i j : Nat)
    (attempts closed : List Nat) : PushResult :=
  if h : i < arr.length then
    let conn := arr.get ⟨i, h⟩
    if writeOk conn then
      let arr2 := if i ≠ j then arr.set j conn else arr
      pushLoopGo writeOk arr2 (i + 1) (j + 1) (attempts ++ [conn]) closed
    else
      pushLoopGo writeOk arr (i + 1) j (attempts ++ [conn]) (closed ++ [conn])
  else
    ⟨arr.take j, attempts, closed⟩
termination_by arr.length - i
decreasing_by
  · split <;> simp <;> omega
  · omega

/-- The broadcast pass over the current subscriber slice. -/
def broadcastPass (writeOk : Nat → Bool) (conns : List Nat) : PushResult :=
  pushLoopGo writeOk conns 0 0 [] []

theorem take_succ_set (l : List Nat) (j : Nat) (c : Nat) (h : j < l.length) :
    (l.set j c).take (j + 1) = l.take j ++ [c] := by
  induction l generalizing j with
  | nil => simp at h
  | cons hd tl ih =>
    cases j with
    | zero => simp
    | succ j => simpa using ih j (by simpa using h)

theorem drop_set_of_lt (l : List Nat) (j i : Nat) (c : Nat) (h : j < i) :
    (l.set j c).drop i = l.drop i := by
  induction l generalizing i j with
  | nil => simp
  | cons hd tl ih =>
    cases j with
    | zero =>
      cases i with
      | zero => omega
      | succ i => simp
    | succ j =>
      cases i with
      | zero => omega
      | succ i => simpa using ih j i (by omega)

theorem take_set_ge (l : List Nat) (j : Nat) (c : Nat) (h : j ≥ l.length) :
    l.set j c = l := by
  exact List.set_eq_of_length_le (by omega)

theorem pushLoopGo_spec (writeOk : Nat → Bool) :
    ∀ (n : Nat) (arr : List Nat) (i j : Nat) (attempts closed : List Nat),
      arr.length - i ≤ n → j ≤ i →
      pushLoopGo writeOk arr i j attempts closed =
        ⟨arr.take j ++ (arr.drop i).filter (fun c => writeOk c),
         attempts ++ arr.drop i,
         closed ++ (arr.drop i).filter (fun c => !writeOk c)⟩ := by
  intro n
  induction n with
  | zero =>
    intro arr i j attempts closed hn hj
    have hlen : arr.length ≤ i := by omega
    rw [pushLoopGo, dif_neg (by omega)]
    simp [List.drop_eq_nil_of_le hlen]
  | succ n ih =>
    intro arr i j attempts closed hn hj
    rw [pushLoopGo]
    by_cases h : i < arr.length
    · rw [dif_pos h]
      have hdrop : arr.drop i = arr.get ⟨i, h⟩ :: arr.drop (i + 1) := by
        rw [List.get_eq_getElem]
        exact List.drop_eq_getElem_cons h
      have hpos : (fun c => writeOk c) (arr.get ⟨i, h⟩) = writeOk (arr.get ⟨i, h⟩) :=
        rfl
      by_cases hw : writeOk (arr.get ⟨i, h⟩)
      · rw [if_pos hw]
        have hfpos :
            (arr.drop i).filter (fun c => writeOk c) =
              arr.get ⟨i, h⟩ :: (arr.drop (i + 1)).filter (fun c => writeOk c) := by
          rw [hdrop, List.filter_cons_of_pos hw]
        have hfneg :
            (arr.drop i).filter (fun c => !writeOk c) =
              (arr.drop (i + 1)).filter (fun c => !writeOk c) := by
          rw [hdrop, List.filter_cons_of_neg (by simpa using hw)]
        by_cases hij : i ≠ j
        · rw [if_pos hij]
          have hjlt : j < arr.length := by omega
          rw [ih (arr.set j (arr.get ⟨i, h⟩)) (i + 1) (j + 1) _ _
            (by rw [List.length_set]; omega) (by omega)]
          rw [take_succ_set arr j _ hjlt,
            drop_set_of_lt arr j (i + 1) _ (by omega),
            hfpos, hfneg, hdrop]
          simp only [PushResult.mk.injEq]
          refine ⟨?_, ?_, ?_⟩
          · rw [List.append_assoc, List.singleton_append]
          · rw [List.append_assoc, List.singleton_append]
          · trivial
        · rw [if_neg hij]
          have hji : i = j := by omega
          subst hji
          rw [ih arr (i + 1) (i + 1) _ _ (by omega) (by omega)]
          have htake : arr.take (i + 1) = arr.take i ++ [arr.get ⟨i, h⟩] := by
            rw [List.take_succ, List.getElem?_eq_getElem h]
            rfl
          rw [htake, hfpos, hfneg, hdrop]
          simp only [PushResult.mk.injEq]
          refine ⟨?_, ?_, ?_⟩
          · rw [List.append_assoc, List.singleton_append]
          · rw [List.append_assoc, List.singleton_append]
          · trivial
      · rw [if_neg hw]
        have hfpos :
            (arr.drop i).filter (fun c => writeOk c) =
              (arr.drop (i + 1)).filter (fun c => writeOk c) := by
          rw [hdrop, List.filter_cons_of_neg (by simpa using hw)]
        have hfneg :
            (arr.drop i).filter (fun c => !writeOk c) =
              arr.get ⟨i, h⟩ :: (arr.drop (i + 1)).filter (fun c => !writeOk c) := by
          rw [hdrop, List.filter_cons_of_pos (by simpa using hw)]
        rw [ih arr (i + 1) j _ _ (by omega) (by omega)]
        rw [hfpos, hfneg, hdrop]
        simp only [PushResult.mk.injEq]
        refine ⟨?_, ?_, ?_⟩
        · trivial
        · rw [List.append_assoc, List.singleton_append]
        · rw [List.append_assoc, List.singleton_append]
    · rw [dif_neg h]
      have hlen : arr.length ≤ i := by omega
      simp [List.drop_eq_nil_of_le hlen]

/-- The closed form of one broadcast pass: survivors are exactly the
connections whose write succeeded, in their original order; every
connection in the slice got exactly one write attempt; the closed set is
exactly the failures. -/
theorem broadcastPass_eq (writeOk : Nat → Bool) (conns : List Nat) :
    broadcastPass writeOk conns =
      ⟨conns.filter (fun c => writeOk c), conns,
       conns.filter (fun c => !writeOk c)⟩ := by
  have h := pushLoopGo_spec writeOk conns.length conns 0 0 [] []
    (by omega) (by omega)
  simpa [broadcastPass] using h

/-- `webSocketServer.onBotPushEvent`: evaluate the configured filter on
the event's JSON form; a rejection returns before the lock is taken;
otherwise run the broadcast pass over the subscriber slice. -/
def onBotPushEventServer (flt : Option (JVal → Bool)) (e : JVal)
    (writeOk : Nat → Bool) (eventConn : List Nat) : PushResult :=
  match flt with
  | some f =>
    if !(f e) then ⟨eventConn, [], []⟩ else broadcastPass writeOk eventConn
  | none => broadcastPass writeOk eventConn

/-- Observable outcome of one `websocketClient.onBotPushEvent` closure
invocation on the single role connection. -/
structure ClientPushResult where
  wroteAttempted : Bool
  closedConn : Bool
  reconnectTriggered : Bool
deriving DecidableEq

/-- `websocketClient.onBotPushEvent` (closure body): evaluate the
configured filter; on rejection return; otherwise `WriteText` the event,
and on a write error close the connection and reconnect exactly when the
reconnect interval is nonzero. -/
def onBotPushEventClient (flt : Option (JVal → Bool)) (e : JVal)
    (writeOk : Bool) (reconnectInterval : Nat) : ClientPushResult :=
  match flt with
  | some f =>
    if !(f e) then ⟨false, false, false⟩
    else if writeOk then ⟨true, false, false⟩
    else ⟨true, true, reconnectInterval != 0⟩
  | none =>
    if writeOk then ⟨true, false, false⟩
    else ⟨true, true, reconnectInterval != 0⟩

/-- C1: one broadcast pass attempts the write on every registered
connection, in registration order, so a write failure never prevents
delivery to later subscribers; under distinct registrations each
successful connection is attempted exactly once and survives; the pass
keeps exactly the successful connections in their original relative
order (in-place compaction) and closes exactly the failed ones, which
are absent from the subscriber set afterwards. -/
theorem broadcast_exact_once_compaction (writeOk : Nat → Bool) (conns : List Nat) :
    (broadcastPass writeOk conns).attempts = conns ∧
    (broadcastPass writeOk conns).conns = conns.filter (fun c => writeOk c) ∧
    (broadcastPass writeOk conns).closed = conns.filter (fun c => !writeOk c) ∧
    (conns.Nodup → ∀ c ∈ conns, writeOk c = true →
      List.count c (broadcastPass writeOk conns).attempts = 1 ∧
        c ∈ (broadcastPass writeOk conns).conns) ∧
    (∀ c ∈ conns, writeOk c = false → c ∉ (broadcastPass writeOk conns).conns) := by
  rw [broadcastPass_eq]
  refine ⟨rfl, rfl, rfl, ?_, ?_⟩
  · intro hnd c hc hw
    exact ⟨List.count_eq_one_of_mem hnd hc, List.mem_filter.mpr ⟨hc, hw⟩⟩
  · intro c hc hw hmem
    have h2 := (List.mem_filter.mp hmem).2
    simp [hw] at h2

theorem broadcast_exact_once_compaction_witness :
    (broadcastPass (fun c => c != 2) [1, 2, 3]).attempts = [1, 2, 3] ∧
    (broadcastPass (fun c => c != 2) [1, 2, 3]).conns = [1, 3] ∧
    (broadcastPass (fun c => c != 2) [1, 2, 3]).closed = [2] ∧
    List.count 3 (broadcastPass (fun c => c != 2) [1, 2, 3]).attempts = 1 ∧
    2 ∉ (broadcastPass (fun c => c != 2) [1, 2, 3]).conns := by
  have h := broadcast_exact_once_compaction (fun c => c != 2) [1, 2, 3]
  refine ⟨h.1, ?_, ?_,
    (h.2.2.2.1 (by decide) 3 (by decide) (by decide)).1,
    h.2.2.2.2 2 (by decide) (by decide)⟩
  · rw [h.2.1]; decide
  · rw [h.2.2.1]; decide

/-- C9: an event rejected by the configured filter causes zero write
attempts and no state change: on the forward server the subscriber set
is returned untouched with nothing attempted and nothing closed; on the
reverse client no write is attempted, the role connection is not closed
and no reconnection is triggered. -/
theorem filtered_event_no_side_effects (f : JVal → Bool) (e : JVal)
    (writeOk : Nat → Bool) (conns : List Nat) (writeOkC : Bool)
    (reconnectInterval : Nat) (hrej : f e = false) :
    onBotPushEventServer (some f) e writeOk conns = ⟨conns, [], []⟩ ∧
    onBotPushEventClient (some f) e writeOkC reconnectInterval =
      ⟨false, false, false⟩ := by
  constructor
  · simp [onBotPushEventServer, hrej]
  · simp [onBotPushEventClient, hrej]

theorem filtered_event_no_side_effects_witness :
    (fun _ : JVal => false) JVal.null = false ∧
    onBotPushEventServer (some (fun _ => false)) JVal.null
      (fun _ => true) [4, 5] = ⟨[4, 5], [], []⟩ ∧
    onBotPushEventClient (some (fun _ => false)) JVal.null false 250 =
      ⟨false, false, false⟩ := by
  have h := filtered_event_no_side_effects (fun _ => false) JVal.null
    (fun _ => true) [4, 5] false 250 rfl
  exact ⟨rfl, h.1, h.2⟩

/-! ## Forward-server accept paths (`webSocketServer.event` / `.any`)

`authStatus` is the result of the external `checkAuth` (HTTP status,
200 on success), `upgradeOk` whether `upgrader.Upgrade` succeeds, and
`handshakeOk` whether the handshake `WriteMessage` succeeds. -/

/-- Observable outcome of one accept-path invocation. -/
structure AcceptResult where
  httpReject : Option Nat
  connCreated : Bool
  socketClosed : Bool
  eventConn : List Nat
  startedListen : Bool
deriving DecidableEq

/-- `webSocketServer.event`: auth check, upgrade, handshake write, then
registration of the new connection into `s.eventConn` under `s.mu`. -/
def serverEventEndpoint (authStatus : Nat) (upgradeOk handshakeOk : Bool)
    (eventConn : List Nat) (newConn : Nat) : AcceptResult :=
  if authStatus != 200 then ⟨some authStatus, false, false, eventConn, false⟩
  else if !upgradeOk then ⟨none, false, false, eventConn, false⟩
  else if !handshakeOk then ⟨none, false, true, eventConn, false⟩
  else ⟨none, true, false, eventConn ++ [newConn], false⟩

/-- `webSocketServer.any` (combined endpoint): same accept path as
`/event`, then registration and the reader loop. -/
def serverAnyEndpoint (authStatus : Nat) (upgradeOk handshakeOk : Bool)
    (eventConn : List Nat) (newConn : Nat) : AcceptResult :=
  if authStatus != 200 then ⟨some authStatus, false, false, eventConn, false⟩
  else if !upgradeOk then ⟨none, false, false, eventConn, false⟩
  else if !handshakeOk then ⟨none, false, true, eventConn, false⟩
  else ⟨none, true, false, eventConn ++ [newConn], true⟩

/-- C4: on the event and combined endpoints the connection is registered
iff authentication, upgrade and handshake write all succeed; an auth
failure is an HTTP rejection before upgrade with no connection object
created; a handshake write failure closes the socket and leaves the
subscriber set unchanged. -/
theorem register_iff_auth_upgrade_handshake (authStatus : Nat)
    (upgradeOk handshakeOk : Bool) (eventConn : List Nat) (newConn : Nat) :
    ((serverEventEndpoint authStatus upgradeOk handshakeOk eventConn newConn).eventConn
        = eventConn ++ [newConn] ↔
      authStatus = 200 ∧ upgradeOk = true ∧ handshakeOk = true) ∧
    ((serverAnyEndpoint authStatus upgradeOk handshakeOk eventConn newConn).eventConn
        = eventConn ++ [newConn] ↔
      authStatus = 200 ∧ upgradeOk = true ∧ handshakeOk = true) ∧
    (¬(authStatus = 200 ∧ upgradeOk = true ∧ handshakeOk = true) →
      (serverEventEndpoint authStatus upgradeOk handshakeOk eventConn newConn).eventConn
          = eventConn ∧
      (serverAnyEndpoint authStatus upgradeOk handshakeOk eventConn newConn).eventConn
          = eventConn) ∧
    (authStatus ≠ 200 →
      (serverEventEndpoint authStatus upgradeOk handshakeOk eventConn newConn) =
        ⟨some authStatus, false, false, eventConn, false⟩ ∧
      (serverAnyEndpoint authStatus upgradeOk handshakeOk eventConn newConn) =
        ⟨some authStatus, false, false, eventConn, false⟩) ∧
    (authStatus = 200 → upgradeOk = true → handshakeOk = false →
      (serverEventEndpoint authStatus upgradeOk handshakeOk eventConn newConn) =
        ⟨none, false, true, eventConn, false⟩ ∧
      (serverAnyEndpoint authStatus upgradeOk handshakeOk eventConn newConn) =
        ⟨none, false, true, eventConn, false⟩) := by
  have hne : eventConn ≠ eventConn ++ [newConn] := by
    intro hcontra
    have := congrArg List.length hcontra
    simp at this
  refine ⟨?_, ?_, ?_, ?_, ?_⟩
  · constructor
    · intro hreg
      by_cases ha : authStatus = 200
      · by_cases hu : upgradeOk
        · by_cases hh : handshakeOk
          · exact ⟨ha, hu, hh⟩
          · simp [serverEventEndpoint, ha, hu, hh] at hreg
        · simp [serverEventEndpoint, ha, hu] at hreg
      · simp [serverEventEndpoint, ha] at hreg
    · rintro ⟨ha, hu, hh⟩
      simp [serverEventEndpoint, ha, hu, hh]
  · constructor
    · intro hreg
      by_cases ha : authStatus = 200
      · by_cases hu : upgradeOk
        · by_cases hh : handshakeOk
          · exact ⟨ha, hu, hh⟩
          · simp [serverAnyEndpoint, ha, hu, hh] at hreg
        · simp [serverAnyEndpoint, ha, hu] at hreg
      · simp [serverAnyEndpoint, ha] at hreg
    · rintro ⟨ha, hu, hh⟩
      simp [serverAnyEndpoint, ha, hu, hh]
  · intro hfail
    by_cases ha : authStatus = 200
    · by_cases hu : upgradeOk
      · by_cases hh : handshakeOk
        · exact absurd ⟨ha, hu, hh⟩ hfail
        · simp [serverEventEndpoint, serverAnyEndpoint, ha, hu, hh]
      · simp [serverEventEndpoint, serverAnyEndpoint, ha, hu]
    · simp [serverEventEndpoint, serverAnyEndpoint, ha]
  · intro ha
    simp [serverEventEndpoint, serverAnyEndpoint, ha]
  · intro ha hu hh
    simp [serverEventEndpoint, serverAnyEndpoint, ha, hu, hh]

theorem register_iff_auth_upgrade_handshake_witness :
    ((serverEventEndpoint 200 true true [7] 9).eventConn = [7] ++ [9]) ∧
    ((serverAnyEndpoint 401 true true [7] 9) =
      ⟨some 401, false, false, [7], false⟩) ∧
    ((serverEventEndpoint 200 true false [7] 9) =
      ⟨none, false, true, [7], false⟩) := by
  have h := register_iff_auth_upgrade_handshake 200 true true [7] 9
  have h401 := register_iff_auth_upgrade_handshake 401 true true [7] 9
  have hhs := register_iff_auth_upgrade_handshake 200 true false [7] 9
  exact ⟨h.1.mpr ⟨rfl, rfl, rfl⟩, (h401.2.2.2.1 (by decide)).2,
    (hhs.2.2.2.2 rfl rfl rfl).1⟩

/-! ## Handshake frames (`runWSServer`, `websocketClient.connect`) -/

/-- The forward-server handshake string built in `runWSServer` by
`fmt.Sprintf`, with `%d` rendered by `toString` on the bot uin and the
unix timestamp. -/
def serverHandshake (uin time : Int) : String :=
  "\x7b\"_post_method\":2,\"meta_event_type\":\"lifecycle\",\"post_type\":\"meta_event\",\"self_id\":"
    ++ toString uin ++ ",\"sub_type\":\"connect\",\"time\":" ++ toString time ++ "\x7d"

/-- The client-dial handshake string built in `websocketClient.connect`
for the Event and Universal roles. -/
def clientHandshake (uin time : Int) : String :=
  "\x7b\"meta_event_type\":\"lifecycle\",\"post_type\":\"meta_event\",\"self_id\":"
    ++ toString uin ++ ",\"sub_type\":\"connect\",\"time\":" ++ toString time ++ "\x7d"

/-- The server handshake JSON template as the specification states it. -/
def specServerHandshake (selfId time : Int) : String :=
  "\x7b\"_post_method\":2,\"meta_event_type\":\"lifecycle\",\"post_type\":\"meta_event\",\"self_id\":"
    ++ toString selfId ++ ",\"sub_type\":\"connect\",\"time\":" ++ toString time ++ "\x7d"

/-- The client-dial handshake JSON template as the specification states
it: the same object with no leading discriminator field. -/
def specClientHandshake (selfId time : Int) : String :=
  "\x7b\"meta_event_type\":\"lifecycle\",\"post_type\":\"meta_event\",\"self_id\":"
    ++ toString selfId ++ ",\"sub_type\":\"connect\",\"time\":" ++ toString time ++ "\x7d"

/-- The frame the forward server writes on a connection accepted at
clock `acceptTime`: `runWSServer` builds `s.handshake` once, at startup,
from the bot uin and the startup clock, and `event`/`any` write that
stored string on every later accept — the accept time never enters. -/
def serverSentHandshake (uin startupTime acceptTime : Int) : String :=
  serverHandshake uin startupTime

/-- The frame the reverse client writes on an Event/Universal dial that
completes at clock `connectTime`: `websocketClient.connect` formats it
at that moment, per dial. -/
def clientSentHandshake (uin connectTime : Int) : String :=
  clientHandshake uin connectTime

/-- C5 counterexample: a forward server started at clock 100 accepts a
connection at clock 200; the frame written on that connection is the
startup-time frame, not the frame carrying the connection's own connect
timestamp, so the claim's "connect timestamp of that connection" fails
for the server variant. -/
theorem server_handshake_not_connect_time :
    serverSentHandshake 12345 100 200 = serverHandshake 12345 100 ∧
    serverSentHandshake 12345 100 200 ≠ serverHandshake 12345 200 := by
  constructor
  · rfl
  · decide

/-- C5 (amended): the handshake frame carries the bot identity and a
unix timestamp; the server variant is exactly the spec's
`_post_method`-discriminated lifecycle JSON built from the
server-startup clock and reused verbatim for every later accepted
connection, independent of the accept time, while the client-dial
variant samples its own connect time per dial and is exactly the same
object without the discriminator field. -/
theorem handshake_frames_startup_time
    (uin startupTime acceptTime acceptTime2 connectTime : Int) :
    serverSentHandshake uin startupTime acceptTime =
      specServerHandshake uin startupTime ∧
    serverSentHandshake uin startupTime acceptTime =
      serverSentHandshake uin startupTime acceptTime2 ∧
    clientSentHandshake uin connectTime = specClientHandshake uin connectTime ∧
    ∃ body,
      serverSentHandshake uin startupTime acceptTime =
        "\x7b\"_post_method\":2," ++ body ∧
      clientSentHandshake uin startupTime = "\x7b" ++ body ∧
      body =
        "\"meta_event_type\":\"lifecycle\",\"post_type\":\"meta_event\",\"self_id\":"
          ++ toString uin ++ ",\"sub_type\":\"connect\",\"time\":"
          ++ toString startupTime ++ "\x7d" := by
  refine ⟨rfl, rfl, rfl,
    ⟨"\"meta_event_type\":\"lifecycle\",\"post_type\":\"meta_event\",\"self_id\":"
      ++ toString uin ++ ",\"sub_type\":\"connect\",\"time\":"
      ++ toString startupTime ++ "\x7d", ?_, ?_, rfl⟩⟩
  · simp only [serverSentHandshake, serverHandshake, ← String.append_assoc]
    rfl
  · simp only [clientSentHandshake, clientHandshake, ← String.append_assoc]
    rfl

/-! ## Reverse-client start-up (`runWSClient`) -/

/-- The endpoint fields of `config.WebsocketReverse` that decide which
roles are dialed. -/
structure WebsocketReverse where
  universal : String
  api : String
  event : String
deriving DecidableEq

/-- The dial sequence of `runWSClient`: a nonempty Universal endpoint is
dialed and the function returns; otherwise API and then Event are dialed
when configured. -/
def runWSClientDials (conf : WebsocketReverse) : List (String × String) :=
  if conf.universal != "" then [("Universal", conf.universal)]
  else
    (if conf.api != "" then [("API", conf.api)] else [])
      ++ (if conf.event != "" then [("Event", conf.event)] else [])

/-- C6: with a Universal endpoint configured, only the Universal role is
dialed; no Event or API dial occurs, whatever the other fields hold. -/
theorem universal_supersedes (conf : WebsocketReverse)
    (h : (conf.universal != "") = true) :
    runWSClientDials conf = [("Universal", conf.universal)] ∧
    (∀ u, ("Event", u) ∉ runWSClientDials conf) ∧
    (∀ u, ("API", u) ∉ runWSClientDials conf) := by
  have he : runWSClientDials conf = [("Universal", conf.universal)] := by
    simp [runWSClientDials, h]
  refine ⟨he, fun u hmem => ?_, fun u hmem => ?_⟩
  · rw [he] at hmem
    have h1 : ("Event" : String) = "Universal" :=
      congrArg Prod.fst (List.mem_singleton.mp hmem)
    exact absurd h1 (by decide)
  · rw [he] at hmem
    have h1 : ("API" : String) = "Universal" :=
      congrArg Prod.fst (List.mem_singleton.mp hmem)
    exact absurd h1 (by decide)

theorem universal_supersedes_witness :
    (("wsu" : String) != "") = true ∧
    runWSClientDials ⟨"wsu", "wsa", "wse"⟩ = [("Universal", "wsu")] ∧
    ("Event", "wse") ∉ runWSClientDials ⟨"wsu", "wsa", "wse"⟩ ∧
    ("API", "wsa") ∉ runWSClientDials ⟨"wsu", "wsa", "wse"⟩ := by
  have h := universal_supersedes ⟨"wsu", "wsa", "wse"⟩ (by decide)
  exact ⟨by decide, h.1, h.2.1 ("wse"), h.2.2 ("wsa")⟩

/-! ## Reverse-client dial and retry (`websocketClient.connect`)

`dialOk k` abstracts whether the k-th `websocket.DefaultDialer.Dial`
attempt succeeds.  The Go function retries by self-recursion after a
`time.Sleep(reconnectInterval)` only when the interval is nonzero; the
recursion is unbounded, so the embedding takes an observation fuel —
every claim is stated for sufficiently large fuel. -/

/-- Observable events of the dial/retry loop. -/
inductive ConnectEv where
  | dialAttempt (k : Nat) : ConnectEv
  | dialFailed (k : Nat) : ConnectEv
  | sleep (ms : Nat) : ConnectEv
  | connected (k : Nat) : ConnectEv
deriving DecidableEq

/-- The dial/retry recursion of `websocketClient.connect`, as the trace
of its observable events starting at attempt `k`. -/
def connectLoop (reconnectInterval : Nat) (dialOk : Nat → Bool) :
    Nat → Nat → List ConnectEv
  | 0, _ => []
  | fuel + 1, k =>
    if dialOk k then [ConnectEv.dialAttempt k, ConnectEv.connected k]
    else if reconnectInterval != 0 then
      [ConnectEv.dialAttempt k, ConnectEv.dialFailed k,
        ConnectEv.sleep reconnectInterval]
        ++ connectLoop reconnectInterval dialOk fuel (k + 1)
    else [ConnectEv.dialAttempt k, ConnectEv.dialFailed k]

theorem connectLoop_until_success (d : Nat) (dialOk : Nat → Bool)
    (hd : (d != 0) = true) :
    ∀ (n k fuel : Nat), n < fuel → (∀ m, m < n → dialOk (k + m) = false) →
      dialOk (k + n) = true →
      connectLoop d dialOk fuel k =
        List.flatten ((List.range n).map (fun m => [ConnectEv.dialAttempt (k + m),
            ConnectEv.dialFailed (k + m), ConnectEv.sleep d]))
          ++ [ConnectEv.dialAttempt (k + n), ConnectEv.connected (k + n)] := by
  intro n
  induction n with
  | zero =>
    intro k fuel hfuel hbefore hok
    obtain ⟨fuel2, rfl⟩ : ∃ fuel2, fuel = fuel2 + 1 :=
      ⟨fuel - 1, by omega⟩
    simp at hok
    simp [connectLoop, hok]
  | succ n ih =>
    intro k fuel hfuel hbefore hok
    obtain ⟨fuel2, rfl⟩ : ∃ fuel2, fuel = fuel2 + 1 :=
      ⟨fuel - 1, by omega⟩
    have h0 : dialOk k = false := by
      have := hbefore 0 (by omega)
      simpa using this
    have hrest := ih (k + 1) fuel2 (by omega)
      (fun m hm => by
        have := hbefore (m + 1) (by omega)
        simpa [Nat.add_assoc, Nat.add_comm 1 m] using this)
      (by
        have : k + 1 + n = k + (n + 1) := by omega
        rw [this]
        exact hok)
    have hkn : k + 1 + n = k + (n + 1) := by omega
    have hmapeq : List.map (fun m => [ConnectEv.dialAttempt (k + 1 + m),
          ConnectEv.dialFailed (k + 1 + m), ConnectEv.sleep d]) (List.range n) =
        List.map ((fun m => [ConnectEv.dialAttempt (k + m),
          ConnectEv.dialFailed (k + m), ConnectEv.sleep d]) ∘ Nat.succ)
          (List.range n) := by
      apply List.map_congr_left
      intro m hmem
      have hm : k + 1 + m = k + (m + 1) := by omega
      simp [Function.comp, hm]
    rw [connectLoop]
    simp only [h0, hd, if_true, if_false, Bool.false_eq_true]
    rw [hrest, hmapeq, hkn, List.range_succ_eq_map]
    simp [List.map_map, List.append_assoc]

/-- C7: after a dial failure, a zero reconnect interval means the dial
is never retried (the trace is a single failed attempt, whatever fuel
remains), while a nonzero interval retries after a sleep of exactly that
interval between consecutive attempts and connects at the first attempt
the peer accepts. -/
theorem dial_retry_policy (d : Nat) (dialOk : Nat → Bool) (n fuel : Nat)
    (hd : (d != 0) = true) (hfuel : n < fuel)
    (hbefore : ∀ m, m < n → dialOk m = false) (hok : dialOk n = true)
    (dialOk0 : Nat → Bool) (h0 : dialOk0 0 = false) (fuel0 : Nat)
    (hfuel0 : 0 < fuel0) :
    connectLoop 0 dialOk0 fuel0 0 =
      [ConnectEv.dialAttempt 0, ConnectEv.dialFailed 0] ∧
    connectLoop d dialOk fuel 0 =
      List.flatten ((List.range n).map (fun m => [ConnectEv.dialAttempt m,
          ConnectEv.dialFailed m, ConnectEv.sleep d]))
        ++ [ConnectEv.dialAttempt n, ConnectEv.connected n] := by
  constructor
  · obtain ⟨fuel1, rfl⟩ : ∃ fuel1, fuel0 = fuel1 + 1 :=
      ⟨fuel0 - 1, by omega⟩
    simp [connectLoop, h0]
  · have h := connectLoop_until_success d dialOk hd n 0 fuel hfuel
      (fun m hm => by simpa using hbefore m hm) (by simpa using hok)
    simpa using h

theorem dial_retry_policy_witness :
    connectLoop 0 (fun _ => false) 9 0 =
      [ConnectEv.dialAttempt 0, ConnectEv.dialFailed 0] ∧
    connectLoop 250 (fun k => k == 2) 5 0 =
      List.flatten ((List.range 2).map (fun m => [ConnectEv.dialAttempt m,
          ConnectEv.dialFailed m, ConnectEv.sleep 250]))
        ++ [ConnectEv.dialAttempt 2, ConnectEv.connected 2] := by
  have h := dial_retry_policy 250 (fun k => k == 2) 2 5 (by decide)
    (by omega) (fun m hm => by interval_cases m <;> decide) (by decide)
    (fun _ => false) rfl 9 (by omega)
  exact ⟨h.1, h.2⟩

/-! ## Reader loops (`webSocketServer.listenAPI`,
`websocketClient.listenAPI`)

A reader loop consumes frames from `NextReader` until a read error; the
frames observed before the error form the input list.  Text frames are
dispatched, any other frame type is discarded (its buffer returned to
the pool) and the loop simply continues. -/

/-- One inbound frame, as classified by the message type returned by
`NextReader`. -/
inductive WSFrame where
  | text (payload : String) : WSFrame
  | binary (payload : String) : WSFrame
deriving DecidableEq

/-- The payload when the frame is a text frame. -/
def textPayload : WSFrame → Option String
  | WSFrame.text p => some p
  | WSFrame.binary _ => none

/-- The payload when the frame is a non-text frame. -/
def binaryPayload : WSFrame → Option String
  | WSFrame.text _ => none
  | WSFrame.binary p => some p

/-- The shared `for { t, reader, err := NextReader(); ... }` body of both
reader loops: returns the dispatched payloads and the discarded ones, in
order. -/
def listenLoop : List WSFrame → List String × List String
  | [] => ([], [])
  | WSFrame.text p :: rest =>
    let r := listenLoop rest
    (p :: r.1, r.2)
  | WSFrame.binary p :: rest =>
    let r := listenLoop rest
    (r.1, p :: r.2)

/-- Observable outcome of a reader-loop run. -/
structure ListenResult where
  dispatched : List String
  discarded : List String
  closedAtEnd : Bool
  reconnectDialed : Bool
deriving DecidableEq

/-- `webSocketServer.listenAPI`: the reader loop plus the deferred
close; the server side never redials after the loop ends. -/
def serverListenAPI (frames : List WSFrame) : ListenResult :=
  let r := listenLoop frames
  ⟨r.1, r.2, true, false⟩

/-- `websocketClient.listenAPI`: the reader loop, the deferred close,
and after the loop exits a reconnect dial exactly when the reconnect
interval is nonzero and the role is API (`typ == "API"` guard). -/
def clientListenAPI (reconnectInterval : Nat) (typ : String)
    (frames : List WSFrame) : ListenResult :=
  let r := listenLoop frames
  ⟨r.1, r.2, true, reconnectInterval != 0 && typ == "API"⟩

theorem listenLoop_eq (frames : List WSFrame) :
    listenLoop frames =
      (frames.filterMap textPayload, frames.filterMap binaryPayload) := by
  induction frames with
  | nil => rfl
  | cons hd tl ih =>
    cases hd with
    | text p => simp [listenLoop, ih, List.filterMap_cons, textPayload, binaryPayload]
    | binary p => simp [listenLoop, ih, List.filterMap_cons, textPayload, binaryPayload]

/-- C8: a read-loop exit on the Universal role never triggers a
reconnect dial from the read-loop path, whatever the interval and the
frames read; on the API role the read-loop exit always triggers one when
reconnection is enabled; the Universal role is instead reconnected by
the broadcaster on a write failure when reconnection is enabled. -/
theorem universal_no_readloop_reconnect (reconnectInterval : Nat)
    (frames : List WSFrame) (e : JVal) :
    (clientListenAPI reconnectInterval ("Universal") frames).reconnectDialed =
      false ∧
    ((reconnectInterval != 0) = true →
      (clientListenAPI reconnectInterval ("API") frames).reconnectDialed = true) ∧
    ((reconnectInterval != 0) = true →
      (onBotPushEventClient none e false reconnectInterval).reconnectTriggered =
        true) := by
  refine ⟨?_, fun h => ?_, fun h => ?_⟩
  · have hne : (("Universal" : String) == "API") = false := by decide
    simp [clientListenAPI, hne]
  · have heq : (("API" : String) == "API") = true := by decide
    simp [clientListenAPI, heq, h]
  · simp [onBotPushEventClient, h]

theorem universal_no_readloop_reconnect_witness :
    (clientListenAPI 250 ("Universal") [WSFrame.text ("x")]).reconnectDialed =
      false ∧
    ((250 != 0) = true) ∧
    (clientListenAPI 250 ("API") [WSFrame.text ("x")]).reconnectDialed = true ∧
    (onBotPushEventClient none JVal.null false 250).reconnectTriggered = true := by
  have h := universal_no_readloop_reconnect 250 [WSFrame.text ("x")] JVal.null
  exact ⟨h.1, by decide, h.2.1 (by decide), h.2.2 (by decide)⟩

/-- C10: on both the forward-server and reverse-client reader loops the
dispatcher receives exactly the text-frame payloads, in order; non-text
frames are discarded without dispatching, without closing the
connection, and without ending the loop — the frames after a binary
frame are processed exactly as without it. -/
theorem only_text_frames_dispatch (frames : List WSFrame) (p : String)
    (reconnectInterval : Nat) (typ : String) :
    (serverListenAPI frames).dispatched = frames.filterMap textPayload ∧
    (serverListenAPI frames).discarded = frames.filterMap binaryPayload ∧
    (clientListenAPI reconnectInterval typ frames).dispatched =
      frames.filterMap textPayload ∧
    (clientListenAPI reconnectInterval typ frames).discarded =
      frames.filterMap binaryPayload ∧
    (serverListenAPI (WSFrame.binary p :: frames)).dispatched =
      (serverListenAPI frames).dispatched ∧
    (clientListenAPI reconnectInterval typ (WSFrame.binary p :: frames)).dispatched
      = (clientListenAPI reconnectInterval typ frames).dispatched := by
  refine ⟨?_, ?_, ?_, ?_, ?_, ?_⟩ <;>
    simp [serverListenAPI, clientListenAPI, listenLoop_eq, listenLoop,
      List.filterMap_cons, textPayload, binaryPayload]

/-! ## Write serialization under the connection mutex (`wsConn.WriteText`
and the response write in `wsConn.handleRequest`)

Both write paths hold `c.mu` for the whole frame write (`WriteMessage`,
resp. `NextWriter`/`Encode`/`Close`).  The model is a small-step
interleaving semantics of two concurrent writers on one connection: a
writer acquires the mutex only when free, emits its frame's byte chunks
one scheduler step at a time while holding it, and releases it when the
frame is fully written.  The scheduler may switch writers between any
two steps, so every interleaving the lock permits is represented. -/

/-- Control state of one writer. -/
inductive WriterPC where
  | ready : WriterPC
  | crit : WriterPC
  | finished : WriterPC
deriving DecidableEq

/-- Pointwise update of a two-writer map. -/
def updf {α : Type} (f : Bool → α) (t : Bool) (x : α) : Bool → α :=
  fun u => if u = t then x else f u

/-- Global state: per-writer control state and remaining chunks, the
mutex owner, and the socket trace of emitted chunks tagged by writer. -/
structure WriteState where
  pc : Bool → WriterPC
  rem : Bool → List Nat
  owner : Option Bool
  out : List (Bool × Nat)

/-- One scheduler step: acquire the free mutex, emit the next chunk of
the frame while in the critical section, or release after the last
chunk. -/
inductive WriteStep : WriteState → WriteState → Prop where
  | lock : ∀ (s : WriteState) (t : Bool),
      s.pc t = WriterPC.ready → s.owner = none →
      WriteStep s { s with pc := updf s.pc t WriterPC.crit, owner := some t }
  | emit : ∀ (s : WriteState) (t : Bool) (c : Nat) (rest : List Nat),
      s.pc t = WriterPC.crit → s.rem t = c :: rest →
      WriteStep s { s with rem := updf s.rem t rest, out := s.out ++ [(t, c)] }
  | unlock : ∀ (s : WriteState) (t : Bool),
      s.pc t = WriterPC.crit → s.rem t = [] →
      WriteStep s { s with pc := updf s.pc t WriterPC.finished, owner := none }

/-- Initial state: both writers before their `c.mu.Lock()`, each with a
whole frame to write, mutex free, socket trace empty. -/
def writeInit (f : Bool → List Nat) : WriteState :=
  ⟨fun _ => WriterPC.ready, f, none, []⟩

/-- The chunks of one writer's frame, as they appear on the socket. -/
def tagChunks (t : Bool) (l : List Nat) : List (Bool × Nat) :=
  l.map (fun c => (t, c))

/-- Inductive invariant: the mutex owner is exactly the writer in its
critical section; remaining chunks match the control state; and the
socket trace is a sequence of per-writer contiguous blocks in which only
the last block can be incomplete. -/
def WriteInv (f : Bool → List Nat) (s : WriteState) : Prop :=
  (∀ t, s.pc t = WriterPC.crit → s.owner = some t) ∧
  (∀ t, s.owner = some t → s.pc t = WriterPC.crit) ∧
  (∀ t, s.pc t = WriterPC.ready → s.rem t = f t) ∧
  (∀ t, s.pc t = WriterPC.finished → s.rem t = []) ∧
  ∃ w : Bool → List Nat,
    (∀ t, f t = w t ++ s.rem t) ∧
    (∀ t, s.pc t = WriterPC.ready → w t = []) ∧
    ((s.out = [] ∧ ∀ t, w t = []) ∨
     (∃ t, s.out = tagChunks t (w t) ∧ w (!t) = []) ∨
     (∃ t, s.out = tagChunks t (f t) ++ tagChunks (!t) (w (!t)) ∧
        s.pc t = WriterPC.finished))

theorem writeInv_init (f : Bool → List Nat) : WriteInv f (writeInit f) := by
  refine ⟨?_, ?_, ?_, ?_, fun _ => [], ?_, ?_, Or.inl ⟨rfl, fun t => rfl⟩⟩
  · intro t h
    exact absurd h (by simp [writeInit])
  · intro t h
    exact absurd h (by simp [writeInit])
  · intro t _
    rfl
  · intro t h
    exact absurd h (by simp [writeInit])
  · intro t
    rfl
  · intro t _
    rfl

theorem updf_same {α : Type} (f : Bool → α) (t : Bool) (x : α) :
    updf f t x t = x := by
  simp [updf]

theorem updf_ne {α : Type} (f : Bool → α) (t u : Bool) (x : α) (h : u ≠ t) :
    updf f t x u = f u := by
  simp [updf, h]

theorem tagChunks_append (t : Bool) (a b : List Nat) :
    tagChunks t (a ++ b) = tagChunks t a ++ tagChunks t b := by
  simp [tagChunks]

theorem writeInv_step (f : Bool → List Nat) (s s2 : WriteState)
    (hinv : WriteInv f s) (hstep : WriteStep s s2) : WriteInv f s2 := by
  obtain ⟨hco, hoc, hready, hfin, w, hw, hwready, hshape⟩ := hinv
  cases hstep with
  | lock t hpc howner =>
    refine ⟨?_, ?_, ?_, ?_, w, ?_, ?_, ?_⟩
    · intro u hu
      by_cases hut : u = t
      · subst hut; rfl
      · simp only [updf, if_neg hut] at hu
        have h1 := hco u hu
        rw [howner] at h1
        cases h1
    · intro u hu
      have h1 : u = t := by
        have h2 : (some t : Option Bool) = some u := hu
        exact (Option.some.inj h2).symm
      subst h1
      simp [updf]
    · intro u hu
      by_cases hut : u = t
      · subst hut
        simp only [updf, if_pos rfl] at hu
        cases hu
      · simp only [updf, if_neg hut] at hu
        exact hready u hu
    · intro u hu
      by_cases hut : u = t
      · subst hut
        simp only [updf, if_pos rfl] at hu
        cases hu
      · simp only [updf, if_neg hut] at hu
        exact hfin u hu
    · intro u
      exact hw u
    · intro u hu
      by_cases hut : u = t
      · subst hut
        simp only [updf, if_pos rfl] at hu
        cases hu
      · simp only [updf, if_neg hut] at hu
        exact hwready u hu
    · rcases hshape with ⟨hout, hwall⟩ | ⟨t0, hout, hw0⟩ | ⟨t0, hout, hpc0⟩
      · exact Or.inl ⟨hout, hwall⟩
      · exact Or.inr (Or.inl ⟨t0, hout, hw0⟩)
      · refine Or.inr (Or.inr ⟨t0, hout, ?_⟩)
        have ht0 : t0 ≠ t := by
          intro h1
          rw [h1, hpc] at hpc0
          cases hpc0
        show updf s.pc t WriterPC.crit t0 = WriterPC.finished
        simp only [updf, if_neg ht0]
        exact hpc0
  | emit t c rest hpc hrem =>
    have howner : s.owner = some t := hco t hpc
    have hnotherpc : ∀ u, u ≠ t → s.pc u ≠ WriterPC.crit := by
      intro u hut hu
      have h1 := hco u hu
      rw [howner] at h1
      exact hut (Option.some.inj h1).symm
    refine ⟨hco, hoc, ?_, ?_, updf w t (w t ++ [c]), ?_, ?_, ?_⟩
    · intro u hu
      by_cases hut : u = t
      · subst hut
        rw [hpc] at hu
        cases hu
      · simp only [updf, if_neg hut]
        exact hready u hu
    · intro u hu
      by_cases hut : u = t
      · subst hut
        rw [hpc] at hu
        cases hu
      · simp only [updf, if_neg hut]
        exact hfin u hu
    · intro u
      by_cases hut : u = t
      · subst hut
        show f u = updf w u (w u ++ [c]) u ++ updf s.rem u rest u
        rw [updf_same, updf_same, List.append_assoc, List.singleton_append,
          ← hrem]
        exact hw u
      · show f u = updf w t (w t ++ [c]) u ++ updf s.rem t rest u
        rw [updf_ne _ _ _ _ hut, updf_ne _ _ _ _ hut]
        exact hw u
    · intro u hu
      by_cases hut : u = t
      · subst hut
        rw [hpc] at hu
        cases hu
      · rw [updf_ne _ _ _ _ hut]
        exact hwready u hu
    · have htagc : [(t, c)] = tagChunks t [c] := rfl
      rcases hshape with ⟨hout, hwall⟩ | ⟨t0, hout, hw0⟩ | ⟨t0, hout, hpc0⟩
      · refine Or.inr (Or.inl ⟨t, ?_, ?_⟩)
        · show s.out ++ [(t, c)] = tagChunks t (updf w t (w t ++ [c]) t)
          rw [hout, updf_same, hwall t]
          rfl
        · rw [updf_ne _ _ _ _ (by simp)]
          exact hwall (!t)
      · by_cases ht0 : t0 = t
        · subst ht0
          refine Or.inr (Or.inl ⟨t0, ?_, ?_⟩)
          · show s.out ++ [(t0, c)] = tagChunks t0 (updf w t0 (w t0 ++ [c]) t0)
            rw [hout, updf_same, tagChunks_append]
            rfl
          · rw [updf_ne _ _ _ _ (by simp)]
            exact hw0
        · have htt0 : t = !t0 := by
            cases t <;> cases t0 <;> simp_all
          cases hpc0 : s.pc t0 with
          | ready =>
            have hwt0 : w t0 = [] := hwready t0 hpc0
            refine Or.inr (Or.inl ⟨t, ?_, ?_⟩)
            · show s.out ++ [(t, c)] = tagChunks t (updf w t (w t ++ [c]) t)
              rw [hout, hwt0, updf_same]
              have hwt : w t = [] := by
                have h1 := hw0
                rw [htt0]
                exact h1
              rw [hwt]
              rfl
            · rw [updf_ne _ _ _ _ (by simp)]
              show w (!t) = []
              rw [htt0, Bool.not_not]
              exact hwt0
          | crit =>
            exact absurd hpc0 (hnotherpc t0 ht0)
          | finished =>
            have hremt0 : s.rem t0 = [] := hfin t0 hpc0
            have hft0 : f t0 = w t0 := by
              have h1 := hw t0
              rw [hremt0, List.append_nil] at h1
              exact h1
            refine Or.inr (Or.inr ⟨t0, ?_, hpc0⟩)
            · show s.out ++ [(t, c)] =
                tagChunks t0 (f t0) ++ tagChunks (!t0) (updf w t (w t ++ [c]) (!t0))
              rw [hout, hft0, ← htt0, updf_same]
              have hwt : w t = [] := by
                rw [htt0]
                exact hw0
              rw [hwt]
              rfl
      · have ht0 : t0 ≠ t := by
          intro h1
          rw [h1, hpc] at hpc0
          cases hpc0
        have htt0 : t = !t0 := by
          cases t <;> cases t0 <;> simp_all
        refine Or.inr (Or.inr ⟨t0, ?_, hpc0⟩)
        show s.out ++ [(t, c)] =
          tagChunks t0 (f t0) ++ tagChunks (!t0) (updf w t (w t ++ [c]) (!t0))
        rw [hout, ← htt0, updf_same, tagChunks_append, ← List.append_assoc]
        rfl
  | unlock t hpc hrem =>
    have howner : s.owner = some t := hco t hpc
    have hnotherpc : ∀ u, u ≠ t → s.pc u ≠ WriterPC.crit := by
      intro u hut hu
      have h1 := hco u hu
      rw [howner] at h1
      exact hut (Option.some.inj h1).symm
    refine ⟨?_, ?_, ?_, ?_, w, hw, ?_, ?_⟩
    · intro u hu
      by_cases hut : u = t
      · subst hut
        simp only [updf, if_pos rfl] at hu
        cases hu
      · simp only [updf, if_neg hut] at hu
        exact absurd hu (hnotherpc u hut)
    · intro u hu
      cases hu
    · intro u hu
      by_cases hut : u = t
      · subst hut
        simp only [updf, if_pos rfl] at hu
        cases hu
      · simp only [updf, if_neg hut] at hu
        exact hready u hu
    · intro u hu
      by_cases hut : u = t
      · subst hut
        exact hrem
      · simp only [updf, if_neg hut] at hu
        exact hfin u hu
    · intro u hu
      by_cases hut : u = t
      · subst hut
        simp only [updf, if_pos rfl] at hu
        cases hu
      · simp only [updf, if_neg hut] at hu
        exact hwready u hu
    · rcases hshape with ⟨hout, hwall⟩ | ⟨t0, hout, hw0⟩ | ⟨t0, hout, hpc0⟩
      · exact Or.inl ⟨hout, hwall⟩
      · exact Or.inr (Or.inl ⟨t0, hout, hw0⟩)
      · refine Or.inr (Or.inr ⟨t0, hout, ?_⟩)
        by_cases ht0 : t0 = t
        · subst ht0
          show updf s.pc t0 WriterPC.finished t0 = WriterPC.finished
          rw [updf_same]
        · show updf s.pc t WriterPC.finished t0 = WriterPC.finished
          rw [updf_ne _ _ _ _ ht0]
          exact hpc0

theorem writeInv_reach (f : Bool → List Nat) (s : WriteState)
    (h : Relation.ReflTransGen WriteStep (writeInit f) s) : WriteInv f s := by
  induction h with
  | refl => exact writeInv_init f
  | tail _ hstep ih => exact writeInv_step f _ _ ih hstep

/-- C2: two concurrent writers on one connection serialize under the
connection's exclusive lock: in every reachable state at most one writer
is inside the frame-write critical section, and every complete run puts
one writer's whole frame before the other's on the socket — the chunk
sequences of the two frames never interleave, each frame is contiguous
(atomic to the peer), and no chunk of either frame is dropped.  The two
frames are arbitrary, so this covers an event broadcast (`WriteText`)
racing a dispatcher response write (`handleRequest`), both of which hold
the same per-connection mutex for the whole write. -/
theorem write_serialization (f : Bool → List Nat) (s : WriteState)
    (hreach : Relation.ReflTransGen WriteStep (writeInit f) s) :
    ¬(s.pc false = WriterPC.crit ∧ s.pc true = WriterPC.crit) ∧
    (s.pc false = WriterPC.finished → s.pc true = WriterPC.finished →
      (s.out = tagChunks false (f false) ++ tagChunks true (f true) ∨
       s.out = tagChunks true (f true) ++ tagChunks false (f false))) := by
  obtain ⟨hco, hoc, hready, hfin, w, hw, hwready, hshape⟩ :=
    writeInv_reach f s hreach
  constructor
  · rintro ⟨h0, h1⟩
    have e0 := hco false h0
    have e1 := hco true h1
    rw [e0] at e1
    cases e1
  · intro hf0 hf1
    have hr0 : s.rem false = [] := hfin false hf0
    have hr1 : s.rem true = [] := hfin true hf1
    have hw0 : f false = w false := by
      have h1 := hw false
      rw [hr0, List.append_nil] at h1
      exact h1
    have hw1 : f true = w true := by
      have h1 := hw true
      rw [hr1, List.append_nil] at h1
      exact h1
    rcases hshape with ⟨hout, hwall⟩ | ⟨t0, hout, hwn⟩ | ⟨t0, hout, hpct0⟩
    · left
      rw [hout, hw0, hw1, hwall false, hwall true]
      rfl
    · cases t0 with
      | false =>
        left
        rw [hout]
        show tagChunks false (w false) =
          tagChunks false (f false) ++ tagChunks true (f true)
        have hft : f true = [] := by
          rw [hw1]
          simpa using hwn
        rw [hw0, hft]
        simp [tagChunks]
      | true =>
        right
        rw [hout]
        show tagChunks true (w true) =
          tagChunks true (f true) ++ tagChunks false (f false)
        have hff : f false = [] := by
          rw [hw0]
          simpa using hwn
        rw [hw1, hff]
        simp [tagChunks]
    · cases t0 with
      | false =>
        left
        rw [hout]
        show tagChunks false (f false) ++ tagChunks true (w true) =
          tagChunks false (f false) ++ tagChunks true (f true)
        rw [hw1]
      | true =>
        right
        rw [hout]
        show tagChunks true (f true) ++ tagChunks false (w false) =
          tagChunks true (f true) ++ tagChunks false (f false)
        rw [hw0]

/-- Concrete frames for the serialization witness: writer `false` sends
chunks `[10, 11]`, writer `true` sends `[30, 31]`. -/
def demoFrames : Bool → List Nat := fun t => if t then [30, 31] else [10, 11]

/-- The final state of the complete run in which writer `false` takes
the lock first. -/
def demoEndState : WriteState :=
  ⟨fun _ => WriterPC.finished, fun _ => [], none,
   [(false, 10), (false, 11), (true, 30), (true, 31)]⟩

theorem write_serialization_witness :
    ¬(demoEndState.pc false = WriterPC.crit ∧
        demoEndState.pc true = WriterPC.crit) ∧
    (demoEndState.out =
        tagChunks false (demoFrames false) ++ tagChunks true (demoFrames true) ∨
     demoEndState.out =
        tagChunks true (demoFrames true) ++ tagChunks false (demoFrames false)) := by
  have hext : ∀ a b : WriteState, a.pc = b.pc → a.rem = b.rem →
      a.owner = b.owner → a.out = b.out →
      Relation.ReflTransGen WriteStep a b := by
    intro a b h1 h2 h3 h4
    have he : a = b := by
      cases a
      cases b
      simp_all
    rw [he]
  have hreach : Relation.ReflTransGen WriteStep (writeInit demoFrames)
      demoEndState := by
    refine Relation.ReflTransGen.head (WriteStep.lock _ false rfl rfl) ?_
    refine Relation.ReflTransGen.head (WriteStep.emit _ false 10 [11] rfl rfl) ?_
    refine Relation.ReflTransGen.head (WriteStep.emit _ false 11 [] rfl rfl) ?_
    refine Relation.ReflTransGen.head (WriteStep.unlock _ false rfl rfl) ?_
    refine Relation.ReflTransGen.head (WriteStep.lock _ true rfl rfl) ?_
    refine Relation.ReflTransGen.head (WriteStep.emit _ true 30 [31] rfl rfl) ?_
    refine Relation.ReflTransGen.head (WriteStep.emit _ true 31 [] rfl rfl) ?_
    refine Relation.ReflTransGen.head (WriteStep.unlock _ true rfl rfl) ?_
    refine hext _ _ ?_ ?_ rfl rfl
    · funext u
      cases u <;> rfl
    · funext u
      cases u <;> rfl
  have h := write_serialization demoFrames demoEndState hreach
  exact ⟨h.1, h.2 rfl rfl⟩

end GoCqhttp
